import Mathlib

/-!
# predlp — constrained assignment solver, shallow embedding

The repository's core is `pred_prob_lp` (module `predlp.solver`): given an
ordered list of class identifiers, a mapping from class identifier to a
target count, and a matrix of per-example per-class predicted probabilities,
it returns one label per example so that the per-class label counts match
the targets exactly while the total probability mass of the chosen labels
is maximal.  The repository ships only callers of this function
(`examples/multilabel_classification.ipynb`), so the solver itself is
modelled below from the specification: validation happens first, then an
exact optimizer over the transportation polytope (the LP over that polytope
has an integral optimal vertex, so the continuous solve followed by
per-row argmax extraction computes a maximum-score integral assignment).
Probabilities are embedded as rationals.
-/

namespace Predlp

/-- Class identifiers (the notebook passes integer class indices). -/
abbrev ClassId := Nat

/-- Modelled from the spec: the error taxonomy of §7 for the solver module
`predlp/solver.py`, which is not present in the repository snapshot. -/
inductive SolveError where
  | validationError
  | infeasibleConstraints
  | solverFailure
  | integralityViolation
deriving DecidableEq

deriving instance DecidableEq for Except

/-- Look up the target count of class `c` in the label-count mapping
(association list standing for the Python dict `label_counts`). -/
def countsLookup (labelCounts : List (ClassId × Nat)) (c : ClassId) : Option Nat :=
  (labelCounts.find? (fun p => p.1 == c)).map Prod.snd

/-- The target count of class `c`, defaulting to `0` when absent. -/
def targetOf (labelCounts : List (ClassId × Nat)) (c : ClassId) : Nat :=
  (countsLookup labelCounts c).getD 0

/-- Modelled from the spec: the precondition validation of §4.1 for the
missing `predlp/solver.py`.  Distinctness of the class identifiers and of
the mapping keys reflects that `ClassSet` is an ordered set of distinct
identifiers and `label_counts` a Python dict. -/
def validInput (classNames : List ClassId) (labelCounts : List (ClassId × Nat))
    (predProbs : List (List ℚ)) : Bool :=
  decide classNames.Nodup &&
  decide (labelCounts.map Prod.fst).Nodup &&
  labelCounts.all (fun p => classNames.contains p.1) &&
  classNames.all (fun c => (countsLookup labelCounts c).isSome) &&
  predProbs.all (fun row => row.length == classNames.length) &&
  ((labelCounts.map Prod.snd).sum == predProbs.length)

/-- All label sequences of length `n` drawn from `classNames`
(the integral points of the decision-variable polytope before the
count constraints are imposed). -/
def allLabelSeqs (classNames : List ClassId) : Nat → List (List ClassId)
  | 0 => [[]]
  | n + 1 => classNames.flatMap (fun c => (allLabelSeqs classNames n).map (fun t => c :: t))

/-- A label sequence satisfies the per-class count constraints. -/
def validAssign (classNames : List ClassId) (labelCounts : List (ClassId × Nat))
    (labels : List ClassId) : Bool :=
  classNames.all (fun c => labels.count c == targetOf labelCounts c)

/-- The probability a row assigns to class `c`: the entry at the positional
index of `c` in `classNames` (the i-th column of the matrix corresponds to
`classNames[i]`). -/
def rowScore (classNames : List ClassId) (row : List ℚ) (c : ClassId) : ℚ :=
  row.getD (List.indexOf c classNames) 0

/-- The objective value of a label sequence:
`Σ_i predProbs[i][labels[i]]` with the class column resolved positionally. -/
def seqScore (classNames : List ClassId) (predProbs : List (List ℚ))
    (labels : List ClassId) : ℚ :=
  ((List.range predProbs.length).map
    (fun i => rowScore classNames (predProbs.getD i []) (labels.getD i 0))).sum

/-- Scan the remaining candidates keeping the incumbent `(b, sb)`;
a candidate replaces the incumbent only when strictly better, so the
first assignment attaining the maximum wins (deterministic tie-break). -/
def bestFrom (classNames : List ClassId) (predProbs : List (List ℚ)) :
    List ClassId → ℚ → List (List ClassId) → (List ClassId × ℚ)
  | b, sb, [] => (b, sb)
  | b, sb, a :: rest =>
    if sb < seqScore classNames predProbs a then
      bestFrom classNames predProbs a (seqScore classNames predProbs a) rest
    else
      bestFrom classNames predProbs b sb rest

/-- Pick a maximum-score candidate, or `none` when there is none. -/
def pickBest (classNames : List ClassId) (predProbs : List (List ℚ)) :
    List (List ClassId) → Option (List ClassId × ℚ)
  | [] => none
  | a :: rest => some (bestFrom classNames predProbs a (seqScore classNames predProbs a) rest)

/-- Modelled from the spec: `pred_prob_lp` of the missing `predlp/solver.py`.
Validation happens first (fail fast, before any solve attempt); then the LP
over the transportation polytope is solved and a discrete assignment is
extracted.  Since the polytope's constraint matrix is totally unimodular
with integral right-hand sides and the collaborator returns an optimal
vertex, the composite behaviour equals choosing a maximum-score integral
assignment among those satisfying the count constraints, which is how the
solve step is embedded here. -/
def pred_prob_lp (classNames : List ClassId) (labelCounts : List (ClassId × Nat))
    (predProbs : List (List ℚ)) : Except SolveError (List ClassId × ℚ) :=
  if validInput classNames labelCounts predProbs then
    match pickBest classNames predProbs
        ((allLabelSeqs classNames predProbs.length).filter
          (validAssign classNames labelCounts)) with
    | some (a, s) => .ok (a, s)
    | none => .error .infeasibleConstraints
  else
    .error .validationError

/-- Apply a row permutation given as a list of source indices:
entry `t` of the result is entry `σ[t]` of `l`. -/
def rowPerm (σ : List Nat) (l : List α) (d : α) : List α :=
  σ.map (fun i => l.getD i d)

/-- The inverse of an index permutation: entry `j` is the position of `j` in `σ`. -/
def invPermList (σ : List Nat) : List Nat :=
  (List.range σ.length).map (fun j => List.indexOf j σ)

/-- The canonical feasible assignment: each class repeated its target count,
in mapping order. -/
def canonicalSeq (labelCounts : List (ClassId × Nat)) : List ClassId :=
  labelCounts.flatMap (fun p => List.replicate p.2 p.1)

/-! ## Basic characterizations -/

theorem mem_allLabelSeqs {cn : List ClassId} {n : Nat} {a : List ClassId} :
    a ∈ allLabelSeqs cn n ↔ a.length = n ∧ ∀ c ∈ a, c ∈ cn := by
  induction n generalizing a with
  | zero =>
    simp only [allLabelSeqs, List.mem_singleton]
    constructor
    · rintro rfl; simp
    · rintro ⟨h, -⟩; exact List.length_eq_zero.mp h
  | succ n ih =>
    cases a with
    | nil =>
      simp [allLabelSeqs, List.mem_flatMap]
    | cons c t =>
      simp only [allLabelSeqs, List.mem_flatMap, List.mem_map]
      constructor
      · rintro ⟨c', hc', t', ht', he⟩
        obtain ⟨rfl, rfl⟩ : c' = c ∧ t' = t := by
          injection he with h1 h2; exact ⟨h1, h2⟩
        obtain ⟨hlen, hmem⟩ := ih.mp ht'
        refine ⟨by simp [hlen], ?_⟩
        intro x hx
        rcases List.mem_cons.mp hx with rfl | hx
        · exact hc'
        · exact hmem x hx
      · rintro ⟨hlen, hmem⟩
        refine ⟨c, hmem c (by simp), t, ih.mpr ⟨by simpa using hlen, ?_⟩, rfl⟩
        intro x hx; exact hmem x (List.mem_cons_of_mem _ hx)

theorem validAssign_iff {cn : List ClassId} {lc : List (ClassId × Nat)} {b : List ClassId} :
    validAssign cn lc b = true ↔ ∀ c ∈ cn, b.count c = targetOf lc c := by
  simp [validAssign, List.all_eq_true]

theorem validInput_iff {cn : List ClassId} {lc : List (ClassId × Nat)} {P : List (List ℚ)} :
    validInput cn lc P = true ↔
      cn.Nodup ∧ (lc.map Prod.fst).Nodup ∧ (∀ p ∈ lc, p.1 ∈ cn) ∧
      (∀ c ∈ cn, (countsLookup lc c).isSome = true) ∧
      (∀ row ∈ P, row.length = cn.length) ∧ (lc.map Prod.snd).sum = P.length := by
  simp [validInput, List.all_eq_true, List.elem_iff, and_assoc]

/-! ## The incumbent scan `bestFrom` and `pickBest` -/

theorem bestFrom_fst_mem (cn : List ClassId) (P : List (List ℚ)) :
    ∀ (l : List (List ClassId)) (b : List ClassId) (sb : ℚ),
      (bestFrom cn P b sb l).1 = b ∨ (bestFrom cn P b sb l).1 ∈ l := by
  intro l
  induction l with
  | nil => intro b sb; left; rfl
  | cons a rest ih =>
    intro b sb
    simp only [bestFrom]
    split
    · rcases ih a (seqScore cn P a) with h | h
      · right; rw [h]; exact List.mem_cons_self _ _
      · right; exact List.mem_cons_of_mem _ h
    · rcases ih b sb with h | h
      · left; exact h
      · right; exact List.mem_cons_of_mem _ h

theorem bestFrom_snd_eq (cn : List ClassId) (P : List (List ℚ)) :
    ∀ (l : List (List ClassId)) (b : List ClassId) (sb : ℚ), sb = seqScore cn P b →
      (bestFrom cn P b sb l).2 = seqScore cn P (bestFrom cn P b sb l).1 := by
  intro l
  induction l with
  | nil => intro b sb h; exact h
  | cons a rest ih =>
    intro b sb h
    simp only [bestFrom]
    split
    · exact ih a (seqScore cn P a) rfl
    · exact ih b sb h

theorem le_bestFrom_snd (cn : List ClassId) (P : List (List ℚ)) :
    ∀ (l : List (List ClassId)) (b : List ClassId) (sb : ℚ),
      sb ≤ (bestFrom cn P b sb l).2 := by
  intro l
  induction l with
  | nil => intro b sb; exact le_refl _
  | cons a rest ih =>
    intro b sb
    simp only [bestFrom]
    split
    · exact le_of_lt (lt_of_lt_of_le (by assumption) (ih a (seqScore cn P a)))
    · exact ih b sb

theorem mem_le_bestFrom_snd (cn : List ClassId) (P : List (List ℚ)) :
    ∀ (l : List (List ClassId)) (b : List ClassId) (sb : ℚ),
      ∀ a ∈ l, seqScore cn P a ≤ (bestFrom cn P b sb l).2 := by
  intro l
  induction l with
  | nil => intro b sb a ha; cases ha
  | cons x rest ih =>
    intro b sb a ha
    rcases List.mem_cons.mp ha with rfl | ha
    · simp only [bestFrom]
      split
      · exact le_bestFrom_snd cn P rest a (seqScore cn P a)
      · exact le_trans (not_lt.mp (by assumption)) (le_bestFrom_snd cn P rest b sb)
    · simp only [bestFrom]
      split
      · exact ih x (seqScore cn P x) a ha
      · exact ih b sb a ha

theorem pickBest_eq_some {cn : List ClassId} {P : List (List ℚ)}
    {l : List (List ClassId)} {a : List ClassId} {s : ℚ}
    (h : pickBest cn P l = some (a, s)) :
    a ∈ l ∧ s = seqScore cn P a ∧ ∀ b ∈ l, seqScore cn P b ≤ s := by
  cases l with
  | nil => cases h
  | cons x rest =>
    have he : bestFrom cn P x (seqScore cn P x) rest = (a, s) := by
      simpa [pickBest] using h
    refine ⟨?_, ?_, ?_⟩
    · rcases bestFrom_fst_mem cn P rest x (seqScore cn P x) with hm | hm
      · rw [he] at hm; exact List.mem_cons.mpr (Or.inl hm)
      · rw [he] at hm; exact List.mem_cons_of_mem _ hm
    · have := bestFrom_snd_eq cn P rest x (seqScore cn P x) rfl
      rw [he] at this; exact this
    · intro b hb
      rcases List.mem_cons.mp hb with rfl | hb
      · have := le_bestFrom_snd cn P rest b (seqScore cn P b)
        rw [he] at this; exact this
      · have := mem_le_bestFrom_snd cn P rest x (seqScore cn P x) b hb
        rw [he] at this; exact this

theorem pickBest_isSome (cn : List ClassId) (P : List (List ℚ))
    {l : List (List ClassId)} (h : l ≠ []) : ∃ r, pickBest cn P l = some r := by
  cases l with
  | nil => exact absurd rfl h
  | cons x rest => exact ⟨_, rfl⟩

/-! ## Inversion of a successful solve -/

theorem solve_ok_elim {cn : List ClassId} {lc : List (ClassId × Nat)} {P : List (List ℚ)}
    {a : List ClassId} {s : ℚ} (h : pred_prob_lp cn lc P = .ok (a, s)) :
    validInput cn lc P = true ∧
    a ∈ allLabelSeqs cn P.length ∧ validAssign cn lc a = true ∧
    s = seqScore cn P a ∧
    ∀ b ∈ allLabelSeqs cn P.length, validAssign cn lc b = true → seqScore cn P b ≤ s := by
  unfold pred_prob_lp at h
  split at h
  · next hv =>
    split at h
    · next a' s' hp =>
      obtain ⟨rfl, rfl⟩ : a' = a ∧ s' = s := by
        have := (Except.ok.injEq _ _).mp h
        exact ⟨congrArg Prod.fst this, congrArg Prod.snd this⟩
      obtain ⟨hmem, hs, hmax⟩ := pickBest_eq_some hp
      have hm := List.mem_filter.mp hmem
      refine ⟨hv, hm.1, hm.2, hs, ?_⟩
      intro b hb hvb
      exact hmax b (List.mem_filter.mpr ⟨hb, hvb⟩)
    · exact absurd h (by simp)
  · exact absurd h (by simp)

/-! ## Feasibility: the canonical assignment -/

theorem canonicalSeq_length {lc : List (ClassId × Nat)} :
    (canonicalSeq lc).length = (lc.map Prod.snd).sum := by
  simp [canonicalSeq, List.length_flatMap, Function.comp_def]

theorem mem_canonicalSeq {lc : List (ClassId × Nat)} {c : ClassId}
    (h : c ∈ canonicalSeq lc) : ∃ p ∈ lc, p.1 = c := by
  obtain ⟨p, hp, hc⟩ := List.mem_flatMap.mp h
  exact ⟨p, hp, (List.eq_of_mem_replicate hc).symm⟩

theorem canonicalSeq_count_of_not_mem {lc : List (ClassId × Nat)} {c : ClassId}
    (h : ∀ p ∈ lc, p.1 ≠ c) : (canonicalSeq lc).count c = 0 := by
  rw [List.count_eq_zero]
  intro hc
  obtain ⟨p, hp, he⟩ := mem_canonicalSeq hc
  exact h p hp he

theorem canonicalSeq_count {lc : List (ClassId × Nat)}
    (hnd : (lc.map Prod.fst).Nodup) (c : ClassId) :
    (canonicalSeq lc).count c = targetOf lc c := by
  induction lc with
  | nil => simp [canonicalSeq, targetOf, countsLookup]
  | cons p rest ih =>
    have hnd' : (rest.map Prod.fst).Nodup := (List.nodup_cons.mp hnd).2
    have hni : p.1 ∉ rest.map Prod.fst := (List.nodup_cons.mp hnd).1
    have hcs : canonicalSeq (p :: rest) = List.replicate p.2 p.1 ++ canonicalSeq rest := by
      simp [canonicalSeq]
    by_cases hc : p.1 = c
    · subst hc
      rw [hcs, List.count_append, List.count_replicate, if_pos (by simp),
        canonicalSeq_count_of_not_mem, Nat.add_zero]
      · simp [targetOf, countsLookup]
      · intro q hq he
        exact hni (he ▸ List.mem_map_of_mem Prod.fst hq)
    · rw [hcs, List.count_append, List.count_replicate, if_neg (by simpa using hc),
        Nat.zero_add, ih hnd']
      have hb : (p.1 == c) = false := beq_eq_false_iff_ne.mpr hc
      have : countsLookup (p :: rest) c = countsLookup rest c := by
        simp [countsLookup, List.find?, hb]
      simp [targetOf, this]

theorem canonicalSeq_valid {cn : List ClassId} {lc : List (ClassId × Nat)}
    {P : List (List ℚ)} (hv : validInput cn lc P = true) :
    canonicalSeq lc ∈ allLabelSeqs cn P.length ∧
    validAssign cn lc (canonicalSeq lc) = true := by
  obtain ⟨-, hnd, hkeys, -, -, hsum⟩ := validInput_iff.mp hv
  constructor
  · refine mem_allLabelSeqs.mpr ⟨by rw [canonicalSeq_length, hsum], ?_⟩
    intro c hc
    obtain ⟨p, hp, he⟩ := mem_canonicalSeq hc
    exact he ▸ hkeys p hp
  · exact validAssign_iff.mpr (fun c _ => canonicalSeq_count hnd c)

theorem solve_ok_of_validInput {cn : List ClassId} {lc : List (ClassId × Nat)}
    {P : List (List ℚ)} (hv : validInput cn lc P = true) :
    ∃ a s, pred_prob_lp cn lc P = .ok (a, s) := by
  obtain ⟨hmem, hva⟩ := canonicalSeq_valid hv
  have hne : (allLabelSeqs cn P.length).filter (validAssign cn lc) ≠ [] := by
    intro he
    have : canonicalSeq lc ∈ (allLabelSeqs cn P.length).filter (validAssign cn lc) :=
      List.mem_filter.mpr ⟨hmem, hva⟩
    rw [he] at this
    cases this
  obtain ⟨⟨a, s⟩, hr⟩ := pickBest_isSome cn P hne
  refine ⟨a, s, ?_⟩
  unfold pred_prob_lp
  rw [if_pos hv, hr]

/-! ## Row permutations -/

theorem map_getD_range (l : List α) (d : α) :
    (List.range l.length).map (fun i => l.getD i d) = l := by
  induction l with
  | nil => rfl
  | cons x xs ih =>
    rw [List.length_cons, List.range_succ_eq_map, List.map_cons, List.map_map]
    simp only [Function.comp_def, List.getD_cons_zero, List.getD_cons_succ]
    rw [ih]

theorem rowPerm_length (σ : List Nat) (l : List α) (d : α) :
    (rowPerm σ l d).length = σ.length := by
  simp [rowPerm]

theorem rowPerm_perm (σ : List Nat) (l : List α) (d : α)
    (hσ : σ.Perm (List.range l.length)) : (rowPerm σ l d).Perm l := by
  have h := hσ.map (fun i => l.getD i d)
  rwa [map_getD_range] at h

theorem rowPerm_getD (σ : List Nat) (l : List α) (d : α) (t : Nat)
    (ht : t < σ.length) : (rowPerm σ l d).getD t d = l.getD (σ.getD t 0) d := by
  simp [rowPerm, List.getD_eq_getElem?_getD, List.getElem?_map,
    List.getElem?_eq_getElem ht]

theorem seqScore_rowPerm (cn : List ClassId) (P : List (List ℚ)) (L : List ClassId)
    (σ : List Nat) (hσ : σ.Perm (List.range P.length)) :
    seqScore cn (rowPerm σ P []) (rowPerm σ L 0) = seqScore cn P L := by
  have hlen : σ.length = P.length := by simpa using hσ.length_eq
  unfold seqScore
  rw [rowPerm_length]
  have hmap : (List.range σ.length).map
      (fun t => rowScore cn ((rowPerm σ P []).getD t []) ((rowPerm σ L 0).getD t 0)) =
      (List.range σ.length).map
      (fun t => rowScore cn (P.getD (σ.getD t 0) []) (L.getD (σ.getD t 0) 0)) := by
    refine List.map_eq_map_iff.mpr ?_
    intro t ht
    have ht' : t < σ.length := List.mem_range.mp ht
    rw [rowPerm_getD σ P [] t ht', rowPerm_getD σ L 0 t ht']
  rw [hmap]
  have hfold : (List.range σ.length).map
      (fun t => rowScore cn (P.getD (σ.getD t 0) []) (L.getD (σ.getD t 0) 0)) =
      σ.map (fun i => rowScore cn (P.getD i []) (L.getD i 0)) := by
    conv_rhs => rw [← map_getD_range σ 0]
    rw [List.map_map]
    rfl
  rw [hfold]
  exact (hσ.map (fun i => rowScore cn (P.getD i []) (L.getD i 0))).sum_eq

theorem invPermList_perm (σ : List Nat) (n : Nat) (hσ : σ.Perm (List.range n)) :
    (invPermList σ).Perm (List.range n) := by
  have hlen : σ.length = n := by simpa using hσ.length_eq
  have hmem : ∀ j, j < n → j ∈ σ := fun j hj => hσ.mem_iff.mpr (List.mem_range.mpr hj)
  have hnd : (invPermList σ).Nodup := by
    refine List.Nodup.map_on ?_ (List.nodup_range _)
    intro x hx y hy he
    have hxσ : x ∈ σ := hmem x (hlen ▸ List.mem_range.mp hx)
    have hyσ : y ∈ σ := hmem y (hlen ▸ List.mem_range.mp hy)
    have h1 := List.getElem_indexOf (List.indexOf_lt_length.mpr hxσ)
    have h2 := List.getElem_indexOf (List.indexOf_lt_length.mpr hyσ)
    rw [← h1, ← h2]
    congr 1
  have hsub : invPermList σ ⊆ List.range n := by
    intro j hj
    obtain ⟨t, ht, rfl⟩ := List.mem_map.mp hj
    have htσ : t ∈ σ := hmem t (hlen ▸ List.mem_range.mp ht)
    exact List.mem_range.mpr (hlen ▸ List.indexOf_lt_length.mpr htσ)
  refine (List.subperm_of_subset hnd hsub).perm_of_length_le ?_
  simp [invPermList, hlen]

theorem rowPerm_invPermList (σ : List Nat) (l : List α) (d : α)
    (hσ : σ.Perm (List.range l.length)) :
    rowPerm (invPermList σ) (rowPerm σ l d) d = l := by
  have hlen : σ.length = l.length := by simpa using hσ.length_eq
  have hmem : ∀ j, j < l.length → j ∈ σ := fun j hj => hσ.mem_iff.mpr (List.mem_range.mpr hj)
  show (invPermList σ).map (fun i => (rowPerm σ l d).getD i d) = l
  unfold invPermList
  rw [List.map_map]
  have hcong : (List.range σ.length).map
      ((fun i => (rowPerm σ l d).getD i d) ∘ (fun j => List.indexOf j σ)) =
      (List.range σ.length).map (fun j => l.getD j d) := by
    refine List.map_eq_map_iff.mpr ?_
    intro j hj
    have hjn : j < l.length := hlen ▸ List.mem_range.mp hj
    have hjσ : j ∈ σ := hmem j hjn
    have hidx : List.indexOf j σ < σ.length := List.indexOf_lt_length.mpr hjσ
    simp only [Function.comp_def]
    rw [rowPerm_getD σ l d _ hidx]
    congr 1
    have : σ.getD (List.indexOf j σ) 0 = σ[List.indexOf j σ] := by
      rw [List.getD_eq_getElem?_getD, List.getElem?_eq_getElem hidx]
      rfl
    rw [this, List.getElem_indexOf hidx]
  rw [hcong, hlen, map_getD_range]

theorem validInput_rowPerm (cn : List ClassId) (lc : List (ClassId × Nat))
    (P : List (List ℚ)) (σ : List Nat) (hσ : σ.Perm (List.range P.length))
    (hv : validInput cn lc P = true) : validInput cn lc (rowPerm σ P []) = true := by
  obtain ⟨h1, h2, h3, h4, h5, h6⟩ := validInput_iff.mp hv
  refine validInput_iff.mpr ⟨h1, h2, h3, h4, ?_, ?_⟩
  · intro row hrow
    exact h5 row ((rowPerm_perm σ P [] hσ).mem_iff.mp hrow)
  · rw [h6, rowPerm_length]
    simpa using hσ.length_eq.symm

theorem solve_rowPerm (cn : List ClassId) (lc : List (ClassId × Nat))
    (P : List (List ℚ)) (σ : List Nat) (a : List ClassId) (s : ℚ)
    (hσ : σ.Perm (List.range P.length))
    (h : pred_prob_lp cn lc P = .ok (a, s)) :
    ∃ a', pred_prob_lp cn lc (rowPerm σ P []) = .ok (a', s) ∧
      a'.length = a.length ∧ ∀ c ∈ cn, a'.count c = a.count c := by
  obtain ⟨hv, hmem, hva, hs, hmax⟩ := solve_ok_elim h
  obtain ⟨halen, hamem⟩ := mem_allLabelSeqs.mp hmem
  have hslen : σ.length = P.length := by simpa using hσ.length_eq
  have hv' := validInput_rowPerm cn lc P σ hσ hv
  obtain ⟨a', s', h'⟩ := solve_ok_of_validInput hv'
  obtain ⟨-, hmem', hva', hs', hmax'⟩ := solve_ok_elim h'
  obtain ⟨ha'len, ha'mem⟩ := mem_allLabelSeqs.mp hmem'
  have hP'len : (rowPerm σ P []).length = P.length := by rw [rowPerm_length, hslen]
  have hσa : σ.Perm (List.range a.length) := by rw [halen]; exact hσ
  have hpa : (rowPerm σ a 0).Perm a := rowPerm_perm σ a 0 hσa
  -- the permuted original assignment is a candidate for the permuted matrix
  have hcand : rowPerm σ a 0 ∈ allLabelSeqs cn (rowPerm σ P []).length := by
    refine mem_allLabelSeqs.mpr ⟨?_, ?_⟩
    · rw [rowPerm_length, rowPerm_length]
    · intro c hc; exact hamem c (hpa.mem_iff.mp hc)
  have hvca : validAssign cn lc (rowPerm σ a 0) = true := by
    refine validAssign_iff.mpr fun c hc => ?_
    rw [hpa.count_eq]
    exact validAssign_iff.mp hva c hc
  have hle1 : s ≤ s' := by
    have hb := hmax' (rowPerm σ a 0) hcand hvca
    rw [seqScore_rowPerm cn P a σ hσ, ← hs] at hb
    exact hb
  -- the un-permuted optimal assignment for the permuted matrix is a candidate for P
  set τ := invPermList σ with hτdef
  have hτ : τ.Perm (List.range P.length) := invPermList_perm σ P.length hσ
  have hτlen : τ.length = P.length := by simpa using hτ.length_eq
  have hτa' : τ.Perm (List.range a'.length) := by
    rw [ha'len, hP'len]; exact hτ
  have hpa' : (rowPerm τ a' 0).Perm a' := rowPerm_perm τ a' 0 hτa'
  have hcand' : rowPerm τ a' 0 ∈ allLabelSeqs cn P.length := by
    refine mem_allLabelSeqs.mpr ⟨?_, ?_⟩
    · rw [rowPerm_length, hτlen]
    · intro c hc
      exact ha'mem c (hpa'.mem_iff.mp hc)
  have hvca' : validAssign cn lc (rowPerm τ a' 0) = true := by
    refine validAssign_iff.mpr fun c hc => ?_
    rw [hpa'.count_eq]
    exact validAssign_iff.mp hva' c hc
  have hτP' : τ.Perm (List.range (rowPerm σ P []).length) := by
    rw [hP'len]; exact hτ
  have hsback : seqScore cn P (rowPerm τ a' 0) = s' := by
    have hb := seqScore_rowPerm cn (rowPerm σ P []) a' τ hτP'
    rw [rowPerm_invPermList σ P [] hσ] at hb
    rw [hb, hs']
  have hle2 : s' ≤ s := by
    have hb := hmax (rowPerm τ a' 0) hcand' hvca'
    rwa [hsback] at hb
  have hss : s' = s := le_antisymm hle2 hle1
  refine ⟨a', by rw [h', hss], ?_, ?_⟩
  · rw [ha'len, hP'len, halen]
  · intro c hc
    rw [validAssign_iff.mp hva' c hc, validAssign_iff.mp hva c hc]

/-! ## Reordering the label-count mapping -/

theorem find?_key_eq_some_iff {lc : List (ClassId × Nat)}
    (hnd : (lc.map Prod.fst).Nodup) {c : ClassId} {q : ClassId × Nat} :
    lc.find? (fun p => p.1 == c) = some q ↔ q ∈ lc ∧ q.1 = c := by
  constructor
  · intro h
    exact ⟨List.mem_of_find?_eq_some h, by simpa using List.find?_some h⟩
  · induction lc with
    | nil => rintro ⟨hq, -⟩; cases hq
    | cons p rest ih =>
      rintro ⟨hq, hqc⟩
      have hnd' : (rest.map Prod.fst).Nodup := (List.nodup_cons.mp hnd).2
      have hni : p.1 ∉ rest.map Prod.fst := (List.nodup_cons.mp hnd).1
      by_cases hpc : p.1 = c
      · have hq' : q = p := by
          rcases List.mem_cons.mp hq with rfl | hq
          · rfl
          · exfalso
            apply hni
            rw [hpc, ← hqc]
            exact List.mem_map_of_mem Prod.fst hq
        subst hq'
        simp [List.find?, hpc]
      · have hb : (p.1 == c) = false := beq_eq_false_iff_ne.mpr hpc
        have hq' : q ∈ rest := by
          rcases List.mem_cons.mp hq with rfl | hq
          · exact absurd hqc hpc
          · exact hq
        simp only [List.find?, hb]
        exact ih hnd' ⟨hq', hqc⟩

theorem countsLookup_perm (lc lc' : List (ClassId × Nat))
    (hnd : (lc.map Prod.fst).Nodup) (hp : lc'.Perm lc) (c : ClassId) :
    countsLookup lc' c = countsLookup lc c := by
  have hnd' : (lc'.map Prod.fst).Nodup := ((hp.map Prod.fst).nodup_iff).mpr hnd
  unfold countsLookup
  cases hfind : lc.find? (fun p => p.1 == c) with
  | some q =>
    obtain ⟨hq, hqc⟩ := (find?_key_eq_some_iff hnd).mp hfind
    rw [(find?_key_eq_some_iff hnd').mpr ⟨hp.mem_iff.mpr hq, hqc⟩]
  | none =>
    have hnone := List.find?_eq_none.mp hfind
    rw [List.find?_eq_none.mpr (fun x hx => hnone x (hp.mem_iff.mp hx))]

theorem solve_counts_perm (cn : List ClassId) (lc lc' : List (ClassId × Nat))
    (P : List (List ℚ)) (hp : lc'.Perm lc) :
    pred_prob_lp cn lc' P = pred_prob_lp cn lc P := by
  by_cases hnd : (lc.map Prod.fst).Nodup
  · have htarget : ∀ c, targetOf lc' c = targetOf lc c := fun c => by
      unfold targetOf; rw [countsLookup_perm lc lc' hnd hp c]
    have hva : validAssign cn lc' = validAssign cn lc := by
      funext labels
      unfold validAssign
      congr 1
      funext c
      rw [htarget c]
    have hvi : validInput cn lc' P = validInput cn lc P := by
      rw [Bool.eq_iff_iff, validInput_iff, validInput_iff]
      constructor
      · rintro ⟨h1, h2, h3, h4, h5, h6⟩
        refine ⟨h1, hnd, fun p hpm => h3 p (hp.mem_iff.mpr hpm), ?_, h5, ?_⟩
        · intro c hc
          rw [← countsLookup_perm lc lc' hnd hp c]
          exact h4 c hc
        · rw [← (hp.map Prod.snd).sum_eq]
          exact h6
      · rintro ⟨h1, h2, h3, h4, h5, h6⟩
        refine ⟨h1, ((hp.map Prod.fst).nodup_iff).mpr hnd,
          fun p hpm => h3 p (hp.mem_iff.mp hpm), ?_, h5, ?_⟩
        · intro c hc
          rw [countsLookup_perm lc lc' hnd hp c]
          exact h4 c hc
        · rw [(hp.map Prod.snd).sum_eq]
          exact h6
    unfold pred_prob_lp
    rw [hvi, hva]
  · have hnd' : ¬ (lc'.map Prod.fst).Nodup := fun hx => hnd (((hp.map Prod.fst).nodup_iff).mp hx)
    have h1 : ¬ validInput cn lc P = true := fun hv => hnd (validInput_iff.mp hv).2.1
    have h2 : ¬ validInput cn lc' P = true := fun hv => hnd' (validInput_iff.mp hv).2.1
    unfold pred_prob_lp
    rw [if_neg h2, if_neg h1]

/-! ## Claims -/

/-- C1: whenever `pred_prob_lp` returns an assignment, the number of positions
assigned each class equals that class's entry in the label-count mapping exactly. -/
theorem claim_C1 (cn : List ClassId) (lc : List (ClassId × Nat)) (P : List (List ℚ))
    (a : List ClassId) (s : ℚ) (h : pred_prob_lp cn lc P = .ok (a, s)) :
    ∀ c ∈ cn, countsLookup lc c = some (a.count c) := by
  obtain ⟨hv, -, hva, -, -⟩ := solve_ok_elim h
  intro c hc
  obtain ⟨t, ht⟩ := Option.isSome_iff_exists.mp ((validInput_iff.mp hv).2.2.2.1 c hc)
  rw [ht, validAssign_iff.mp hva c hc, targetOf, ht]
  rfl

unseal Rat.add Rat.mul Rat.inv in
theorem claim_C1_witness :
    countsLookup [(0, 2), (1, 1)] 0 = some (List.count 0 [0, 0, 1]) ∧
    countsLookup [(0, 2), (1, 1)] 1 = some (List.count 1 [0, 0, 1]) :=
  ⟨claim_C1 [0, 1] [(0, 2), (1, 1)] [[9/10, 1/10], [6/10, 4/10], [2/10, 8/10]]
      [0, 0, 1] (23/10) (by decide) 0 (by decide),
   claim_C1 [0, 1] [(0, 2), (1, 1)] [[9/10, 1/10], [6/10, 4/10], [2/10, 8/10]]
      [0, 0, 1] (23/10) (by decide) 1 (by decide)⟩

/-- C2: the returned assignment is optimal: no alternative label sequence of the
same length, drawn from the class set and meeting the same per-class counts,
has a strictly greater total score. -/
theorem claim_C2 (cn : List ClassId) (lc : List (ClassId × Nat)) (P : List (List ℚ))
    (a : List ClassId) (s : ℚ) (b : List ClassId)
    (h : pred_prob_lp cn lc P = .ok (a, s))
    (hblen : b.length = P.length) (hbmem : ∀ c ∈ b, c ∈ cn)
    (hbcount : ∀ c ∈ cn, b.count c = targetOf lc c) :
    seqScore cn P b ≤ s := by
  obtain ⟨-, -, -, -, hmax⟩ := solve_ok_elim h
  exact hmax b (mem_allLabelSeqs.mpr ⟨hblen, hbmem⟩) (validAssign_iff.mpr hbcount)

unseal Rat.add Rat.mul Rat.inv in
theorem claim_C2_witness :
    seqScore [0, 1] [[9/10, 1/10], [6/10, 4/10], [2/10, 8/10]] [0, 1, 0] ≤ 23/10 :=
  claim_C2 [0, 1] [(0, 2), (1, 1)] [[9/10, 1/10], [6/10, 4/10], [2/10, 8/10]]
    [0, 0, 1] (23/10) [0, 1, 0] (by decide) (by decide) (by decide) (by decide)

/-- C3: when the target counts do not sum to the number of probability rows,
`pred_prob_lp` fails validation: it returns the validation error, with no solve
attempt, rescaling or clipping. -/
theorem claim_C3 (cn : List ClassId) (lc : List (ClassId × Nat)) (P : List (List ℚ))
    (h : (lc.map Prod.snd).sum ≠ P.length) :
    pred_prob_lp cn lc P = .error .validationError := by
  have hv : ¬ validInput cn lc P = true := fun hv =>
    h (validInput_iff.mp hv).2.2.2.2.2
  unfold pred_prob_lp
  rw [if_neg hv]

unseal Rat.add Rat.mul Rat.inv in
theorem claim_C3_witness :
    pred_prob_lp [0, 1] [(0, 2), (1, 2)] [[9/10, 1/10], [6/10, 4/10], [2/10, 8/10]]
      = .error .validationError :=
  claim_C3 [0, 1] [(0, 2), (1, 2)] [[9/10, 1/10], [6/10, 4/10], [2/10, 8/10]] (by decide)

/-- C4: on every valid input `pred_prob_lp` returns a pair of an assignment whose
length equals the number of probability rows and the achieved objective value. -/
theorem claim_C4 (cn : List ClassId) (lc : List (ClassId × Nat)) (P : List (List ℚ))
    (hv : validInput cn lc P = true) :
    ∃ a s, pred_prob_lp cn lc P = .ok (a, s) ∧ a.length = P.length := by
  obtain ⟨a, s, h⟩ := solve_ok_of_validInput hv
  exact ⟨a, s, h, (mem_allLabelSeqs.mp (solve_ok_elim h).2.1).1⟩

unseal Rat.add Rat.mul Rat.inv in
theorem claim_C4_witness :
    ∃ a s, pred_prob_lp [0, 1] [(0, 2), (1, 1)] [[9/10, 1/10], [6/10, 4/10], [2/10, 8/10]]
      = .ok (a, s) ∧ a.length = [[(9:ℚ)/10, 1/10], [6/10, 4/10], [2/10, 8/10]].length :=
  claim_C4 [0, 1] [(0, 2), (1, 1)] [[9/10, 1/10], [6/10, 4/10], [2/10, 8/10]] (by decide)

/-- C5: the returned score equals the sum over all examples of the probability
the example's row assigns to its assigned class. -/
theorem claim_C5 (cn : List ClassId) (lc : List (ClassId × Nat)) (P : List (List ℚ))
    (a : List ClassId) (s : ℚ) (h : pred_prob_lp cn lc P = .ok (a, s)) :
    s = seqScore cn P a :=
  (solve_ok_elim h).2.2.2.1

unseal Rat.add Rat.mul Rat.inv in
theorem claim_C5_witness :
    (23 : ℚ)/10 = seqScore [0, 1] [[9/10, 1/10], [6/10, 4/10], [2/10, 8/10]] [0, 0, 1] :=
  claim_C5 [0, 1] [(0, 2), (1, 1)] [[9/10, 1/10], [6/10, 4/10], [2/10, 8/10]]
    [0, 0, 1] (23/10) (by decide)

unseal Rat.add Rat.mul Rat.inv in
/-- C6 (counterexample): with two identical rows and target counts one each,
swapping the rows leaves the input unchanged, so the solver returns the same
assignment `[0, 1]`; but the claim demands the row-swapped assignment `[1, 0]`.
The three conjuncts exhibit this at a concrete valid input. -/
theorem claim_C6_counterexample :
    pred_prob_lp [0, 1] [(0, 1), (1, 1)]
        (rowPerm [1, 0] [[1/2, 1/2], [1/2, 1/2]] []) = .ok ([0, 1], 1) ∧
    pred_prob_lp [0, 1] [(0, 1), (1, 1)] [[1/2, 1/2], [1/2, 1/2]] = .ok ([0, 1], 1) ∧
    rowPerm [1, 0] ([0, 1] : List ClassId) 0 ≠ [0, 1] :=
  ⟨by decide, by decide, by decide⟩

/-- C6 (amended): permuting the rows of the probability matrix (targetCounts
fixed) yields a result with the identical score, whose assignment has the same
length and the same per-class counts as the original; the assignment itself
need not be the row-permuted original when several optimal assignments tie. -/
theorem claim_C6 (cn : List ClassId) (lc : List (ClassId × Nat)) (P : List (List ℚ))
    (σ : List Nat) (a : List ClassId) (s : ℚ)
    (hσ : σ.Perm (List.range P.length))
    (h : pred_prob_lp cn lc P = .ok (a, s)) :
    ∃ aa, pred_prob_lp cn lc (rowPerm σ P []) = .ok (aa, s) ∧
      aa.length = a.length ∧ ∀ c ∈ cn, aa.count c = a.count c :=
  solve_rowPerm cn lc P σ a s hσ h

unseal Rat.add Rat.mul Rat.inv in
theorem claim_C6_witness :
    ∃ aa, pred_prob_lp [0, 1] [(0, 2), (1, 1)]
        (rowPerm [2, 0, 1] [[9/10, 1/10], [6/10, 4/10], [2/10, 8/10]] [])
        = .ok (aa, 23/10) ∧
      aa.length = ([0, 0, 1] : List ClassId).length ∧
      ∀ c ∈ [0, 1], aa.count c = List.count c [0, 0, 1] :=
  claim_C6 [0, 1] [(0, 2), (1, 1)] [[9/10, 1/10], [6/10, 4/10], [2/10, 8/10]]
    [2, 0, 1] [0, 0, 1] (23/10) (by decide) (by decide)

/-- C8: after validation passes, the constraint system is feasible — an integral
assignment meeting all the count constraints exists — so the infeasible error
branch is unreachable. -/
theorem claim_C8 (cn : List ClassId) (lc : List (ClassId × Nat)) (P : List (List ℚ))
    (hv : validInput cn lc P = true) :
    (∃ b ∈ allLabelSeqs cn P.length, validAssign cn lc b = true) ∧
    pred_prob_lp cn lc P ≠ .error .infeasibleConstraints := by
  obtain ⟨hmem, hva⟩ := canonicalSeq_valid hv
  refine ⟨⟨canonicalSeq lc, hmem, hva⟩, ?_⟩
  obtain ⟨a, s, h⟩ := solve_ok_of_validInput hv
  rw [h]
  simp

unseal Rat.add Rat.mul Rat.inv in
theorem claim_C8_witness :
    (∃ b ∈ allLabelSeqs [0, 1] [[(9:ℚ)/10, 1/10], [6/10, 4/10], [2/10, 8/10]].length,
      validAssign [0, 1] [(0, 2), (1, 1)] b = true) ∧
    pred_prob_lp [0, 1] [(0, 2), (1, 1)] [[9/10, 1/10], [6/10, 4/10], [2/10, 8/10]]
      ≠ .error .infeasibleConstraints :=
  claim_C8 [0, 1] [(0, 2), (1, 1)] [[9/10, 1/10], [6/10, 4/10], [2/10, 8/10]] (by decide)

/-- C9: target counts are matched to classes by identifier, not by position:
reordering the entries of the label-count mapping leaves the result of
`pred_prob_lp` unchanged (assignment and score alike). -/
theorem claim_C9 (cn : List ClassId) (lc lc2 : List (ClassId × Nat))
    (P : List (List ℚ)) (hp : lc2.Perm lc) :
    pred_prob_lp cn lc2 P = pred_prob_lp cn lc P :=
  solve_counts_perm cn lc lc2 P hp

unseal Rat.add Rat.mul Rat.inv in
theorem claim_C9_witness :
    pred_prob_lp [0, 1] [(1, 1), (0, 2)] [[9/10, 1/10], [6/10, 4/10], [2/10, 8/10]] =
    pred_prob_lp [0, 1] [(0, 2), (1, 1)] [[9/10, 1/10], [6/10, 4/10], [2/10, 8/10]] :=
  claim_C9 [0, 1] [(0, 2), (1, 1)] [(1, 1), (0, 2)]
    [[9/10, 1/10], [6/10, 4/10], [2/10, 8/10]] (by decide)

/-- C10: every element of the returned assignment is a caller-supplied class
identifier, and the score reads each example's probability from the column at
that identifier's positional index in the class list. -/
theorem claim_C10 (cn : List ClassId) (lc : List (ClassId × Nat)) (P : List (List ℚ))
    (a : List ClassId) (s : ℚ) (h : pred_prob_lp cn lc P = .ok (a, s)) :
    (∀ c ∈ a, c ∈ cn) ∧
    s = ((List.range P.length).map
      (fun i => (P.getD i []).getD (List.indexOf (a.getD i 0) cn) 0)).sum := by
  obtain ⟨-, hmem, -, hs, -⟩ := solve_ok_elim h
  exact ⟨(mem_allLabelSeqs.mp hmem).2, hs⟩

unseal Rat.add Rat.mul Rat.inv in
theorem claim_C10_witness :
    (∀ c ∈ ([0, 0, 1] : List ClassId), c ∈ ([0, 1] : List ClassId)) ∧
    (23 : ℚ)/10 = ((List.range [[(9:ℚ)/10, 1/10], [6/10, 4/10], [2/10, 8/10]].length).map
      (fun i => ([[(9:ℚ)/10, 1/10], [6/10, 4/10], [2/10, 8/10]].getD i []).getD
        (List.indexOf (([0, 0, 1] : List ClassId).getD i 0) [0, 1]) 0)).sum :=
  claim_C10 [0, 1] [(0, 2), (1, 1)] [[9/10, 1/10], [6/10, 4/10], [2/10, 8/10]]
    [0, 0, 1] (23/10) (by decide)

end Predlp
